import Mathlib

/-! Verification of the `monroe_anal` data-fetching core (files
`monroe_anal/db.py`, `monroe_anal/query_base.py`) against its
natural-language specification.  The Python code is shallowly embedded:
the schema registry becomes concrete Lean data, the query builder,
time/frequency resolver, batch executor, result merger and resampler
become executable Lean functions, and the specification's testable
properties are settled as theorems about those functions.
-/

namespace MonroeAnal

/-! Section: Schema registry (`monroe_anal/db.py`)

Each table class in `db.py` lists its columns as class attributes whose
value is either an aggregation-function name (`'mean'`, `'sum'`,
`'mode'`, `'max'`) or the `_GROUP_BY` sentinel marking a grouping-key
column.  `_columns()` returns the attribute names in `dir()` order
(ASCII-lexicographic), `_groupby()` the comma-joined grouping keys. -/

/-- Aggregation tag attached to a schema column: the `'mean'`, `'sum'`,
`'mode'`, `'max'` strings of `db.py`, or the `_GROUP_BY` sentinel. -/
inductive AggTag
| mean
| sum
| mode
| max
| group_by
deriving DecidableEq, Repr

/-- A table schema: its name and its `(column, aggregation tag)` pairs,
in the `dir()` (ASCII-lexicographic) order that `_Table.__iter__`
enumerates them. -/
structure Table where
  name : String
  fields : List (String × AggTag)
deriving DecidableEq, Repr

/-- Embedding of `db.ping`: `NodeId = Iccid = _GROUP_BY`, `RTT = 'mean'`,
`Error = 'sum'`, `Operator = Host = 'mode'`. -/
def ping : Table :=
  ⟨"ping",
   [("Error", .sum), ("Host", .mode), ("Iccid", .group_by),
    ("NodeId", .group_by), ("Operator", .mode), ("RTT", .mean)]⟩

/-- Embedding of `db.gps`: `NodeId = _GROUP_BY`, the rest `'mean'`. -/
def gps : Table :=
  ⟨"gps",
   [("Altitude", .mean), ("Latitude", .mean), ("Longitude", .mean),
    ("NodeId", .group_by), ("SatelliteCount", .mean), ("Speed", .mean)]⟩

/-- Embedding of `db.sensor`. -/
def sensor : Table :=
  ⟨"sensor",
   [("BootCounter", .max), ("CPU_Apps", .mean), ("CPU_User", .mean),
    ("CumUptime", .max), ("Free", .mean), ("NodeId", .group_by),
    ("Swap", .mean), ("Uptime", .max), ("bat_usb0", .mean),
    ("bat_usb1", .mean), ("bat_usb2", .mean)]⟩

/-- Embedding of `db.event`. -/
def event : Table :=
  ⟨"event",
   [("EventType", .mode), ("Message", .mode), ("NodeId", .group_by)]⟩

/-- Embedding of `db.modem`: `NodeId = Iccid = _GROUP_BY`; `Interface`,
`CID`, `DeviceMode`, `DeviceState`, `Frequency`, `MCC_MNC`, `Operator`,
`IP_Address` are `'mode'`; `ECIO`, `RSRQ`, `RSSI` are `'mean'`. -/
def modem : Table :=
  ⟨"modem",
   [("CID", .mode), ("DeviceMode", .mode), ("DeviceState", .mode),
    ("ECIO", .mean), ("Frequency", .mode), ("IP_Address", .mode),
    ("Iccid", .group_by), ("Interface", .mode), ("MCC_MNC", .mode),
    ("NodeId", .group_by), ("Operator", .mode), ("RSRQ", .mean),
    ("RSSI", .mean)]⟩

/-- The tables exposed by `db._all_tables()`, in definition order. -/
def allTables : List Table := [ping, gps, sensor, event, modem]

/-- Embedding of `_Table._columns()`: the column names of a table. -/
def Table.columns (t : Table) : List String := t.fields.map Prod.fst

/-- Embedding of `_Table._groupby()` (as a list rather than the
comma-joined string): the grouping-key columns, i.e. those whose
attribute value is the `_GROUP_BY` sentinel. -/
def Table.groupbyCols (t : Table) : List String :=
  (t.fields.filter (fun f => f.2 = AggTag.group_by)).map Prod.fst

/-- Embedding of `_Table.__contains__`: membership of a column name in a
table (`hasattr` on a non-underscore name is membership in the class
attribute list). -/
def Table.hasColumn (t : Table) (c : String) : Bool := c ∈ t.columns

/-! Section: Query builder (`query_base._query_str` and `getdf`) -/

/-- Embedding of `util.asstr` on a list: the comma-joined string. -/
def asstr (cols : List String) : String := String.intercalate "," cols

/-- Structured form of the query text assembled by `_query_str`: the
SELECT column expression, the measurement (`table_freq`), the WHERE
clauses (joined with AND in the text), the GROUP BY columns and the
LIMIT. -/
structure QueryStr where
  selectCols : String
  measurement : String
  whereParts : List String
  groupByCols : List String
  limit : Nat
deriving DecidableEq, Repr

/-- Embedding of `_query_str(table, freq=freq, columns=columns,
where=where, limit=limit)` with no resample argument (the `getdf` path):
the SELECT expression is the comma-joined column list, or `*` when the
column list is empty (`asstr(columns) or '*'`). -/
def queryStr (t : Table) (freq : String) (cols : List String)
    (conds : List String) (limit : Nat) : QueryStr :=
  { selectCols := if cols.isEmpty then "*" else asstr cols
    measurement := t.name ++ "_" ++ freq
    whereParts := conds
    groupByCols := t.groupbyCols
    limit := limit }

/-- Word characters of the `\w` character class used by
`getdf._where_field_name` (ASCII view: letters, digits, underscore). -/
def isWordChar (c : Char) : Bool := c.isAlphanum || c = '_'

/-- Embedding of `getdf._where_field_name`: the first maximal run of
word characters in a clause, i.e. the leading identifier token.  (On a
clause with no word character the Python raises `IndexError`; the
embedding returns the empty string, and every theorem about it assumes
the token exists.) -/
def leadingIdent (s : String) : String :=
  ⟨(s.data.dropWhile (fun c => !isWordChar c)).takeWhile isWordChar⟩

/-- The membership set used by `getdf._query_for_table`:
`{'time'} | set(table._columns())`. -/
def Table.columnsWithTime (t : Table) : List String := "time" :: t.columns

/-- The WHERE-clause filter of `getdf._query_for_table`: keep exactly
the clauses whose leading identifier token is in
`{'time'} | set(table._columns())`. -/
def queryWhere (t : Table) (conds : List String) : List String :=
  conds.filter (fun c => leadingIdent c ∈ t.columnsWithTime)

/-- Embedding of `getdf._query_for_table`: build the query for one
table, pushing down only the applicable WHERE clauses. -/
def queryForTable (t : Table) (conds : List String) (freq : String)
    (limit : Nat) (cols : List String := []) : QueryStr :=
  queryStr t freq cols (queryWhere t conds) limit

/-- Embedding of the query-list construction in `getdf` (lines 192-199):
one query per requested table, plus — when no requested table is
`modem` but some requested table has an `Iccid` column — one auxiliary
query against `modem` with `columns=['Interface', 'Iccid']`. -/
def buildQueries (tables : List Table) (conds : List String)
    (freq : String) (limit : Nat) : List QueryStr :=
  (tables.map (fun t => queryForTable t conds freq limit)) ++
    (if modem ∉ tables ∧ tables.any (fun t => t.hasColumn "Iccid") then
       [queryForTable modem conds freq limit ["Interface", "Iccid"]]
     else [])

/-! Section: Claim C1: WHERE-clause pushdown -/

/-- Claim C1, counterexample.  The claim states that a filter clause
appears in a table's built query iff its leading identifier token is a
column of the table's schema.  The clause `time >= 0` (the shape
`getdf` itself appends for the time bounds, and equally passable by the
caller) is pushed into `ping`'s query although `time` is not a column
of `ping`'s schema: the code tests membership in
`{'time'} | set(table._columns())`, not in the schema columns alone. -/
theorem C1_counterexample :
    "time >= 0" ∈ (queryForTable ping ["time >= 0"] "30m" 100000).whereParts ∧
      leadingIdent "time >= 0" ∉ ping.columns := by
  decide

/-- Claim C1, amended: a filter clause `c` appears in the WHERE part of
table `t`'s built query iff `c` was among the clauses passed in and the
leading identifier token of `c` is either the literal `time` or a
column of `t`'s schema. -/
theorem C1_filter_pushdown (t : Table) (conds : List String)
    (freq : String) (limit : Nat) (c : String) :
    c ∈ (queryForTable t conds freq limit).whereParts ↔
      c ∈ conds ∧ (leadingIdent c = "time" ∨ leadingIdent c ∈ t.columns) := by
  simp [queryForTable, queryStr, queryWhere, Table.columnsWithTime,
    List.mem_filter]

/-! Section: Claim C7: auxiliary modem query -/

/-- Claim C7, counterexample.  The claim states that the auxiliary query
added when `Iccid` is implied but `modem` was not requested is
restricted to just the key columns.  For the request `tables=['ping']`
the builder appends exactly one auxiliary `modem` query, but it selects
`Interface,Iccid`: `Interface` is a `'mode'` field, not one of
`modem`'s key (`_GROUP_BY`) columns `Iccid, NodeId`. -/
theorem C7_counterexample :
    buildQueries [ping] [] "30m" 100000 =
        [queryForTable ping [] "30m" 100000,
         queryForTable modem [] "30m" 100000 ["Interface", "Iccid"]] ∧
      (queryForTable modem [] "30m" 100000 ["Interface", "Iccid"]).selectCols
          = "Interface,Iccid" ∧
      modem.groupbyCols = ["Iccid", "NodeId"] ∧
      "Interface" ∉ modem.groupbyCols := by
  decide

/-- Claim C7, amended: if the requested tables imply the `Iccid` key
column (some requested table has an `Iccid` column) and `modem` is not
among the requested tables, the builder appends exactly one auxiliary
query against `modem`, restricted to the columns `Interface` and
`Iccid` (the implied key column plus its companion `Interface` field,
not the key columns alone), so the merge step has a join target. -/
theorem C7_aux_query (tables : List Table) (conds : List String)
    (freq : String) (limit : Nat)
    (hmodem : modem ∉ tables)
    (hiccid : ∃ t ∈ tables, t.hasColumn "Iccid") :
    buildQueries tables conds freq limit =
      (tables.map (fun t => queryForTable t conds freq limit)) ++
        [queryForTable modem conds freq limit ["Interface", "Iccid"]] := by
  have hany : tables.any (fun t => t.hasColumn "Iccid") = true := by
    rcases hiccid with ⟨t, ht, hc⟩
    exact List.any_eq_true.mpr ⟨t, ht, hc⟩
  simp [buildQueries, hmodem, hany]

/-- Claim C7, witness: the amended theorem applied to the concrete
request `tables=['ping']`. -/
theorem C7_aux_query_witness :
    modem ∉ [ping] ∧ (∃ t ∈ [ping], t.hasColumn "Iccid") ∧
      buildQueries [ping] [] "30m" 100000 =
        ([ping].map (fun t => queryForTable t [] "30m" 100000)) ++
          [queryForTable modem [] "30m" 100000 ["Interface", "Iccid"]] :=
  ⟨by decide, ⟨ping, by decide⟩,
   C7_aux_query [ping] [] "30m" 100000 (by decide) ⟨ping, by decide⟩⟩

/-! Section: Time/frequency resolver (`query_base._check_freq`, `_check_time`) -/

/-- The granularity tiers `_ALLOWED_FREQS`, finest to coarsest. -/
def ALLOWED_FREQS : List String := ["10ms", "1s", "1m", "30m"]

/-- Tier choice loop of `_check_freq`: given the span in seconds and the
`(ceiling, tier)` pairs, return the first tier whose ceiling the span
is under, defaulting to the coarsest tier `_ALLOWED_FREQS[-1]`. -/
def pickFreq (spanSecs : ℚ) : List (ℚ × String) → String
  | [] => "30m"
  | (ceil, f) :: rest => if spanSecs < ceil then f else pickFreq spanSecs rest

/-- The `(ceiling, tier)` pairs of `_check_freq`: with a node filter the
ceilings are `8h, 2d, 32d`; without, `1h/3, 1h, 20h` (seconds). -/
def freqLimits (hasNodeid : Bool) : List (ℚ × String) :=
  if hasNodeid then
    [(8 * 3600, "10ms"), (2 * 86400, "1s"), (32 * 86400, "1m")]
  else
    [(3600 / 3, "10ms"), (3600, "1s"), (20 * 3600, "1m")]

/-- Embedding of `_check_freq(freq, tspan, nodeid)`: reject a negative
span, validate an explicit tier against `_ALLOWED_FREQS`, otherwise
choose the tier from the span and the (entity-filter dependent)
ceilings. -/
def checkFreq (freq : Option String) (spanSecs : ℚ) (hasNodeid : Bool) :
    Except String String :=
  if spanSecs < 0 then .error "Start time must be before end time"
  else
    match freq with
    | some f =>
        if f ∈ ALLOWED_FREQS then .ok f
        else .error "freq must be from _ALLOWED_FREQS"
    | none => .ok (pickFreq spanSecs (freqLimits hasNodeid))

/-- Position of a tier in `_ALLOWED_FREQS`; smaller index = finer. -/
def tierIndex (f : String) : Nat := ALLOWED_FREQS.indexOf f

/-- Claim C3: with no entity filter and unspecified granularity, the
selected tier is monotonically non-decreasing in the requested span —
for spans `s1 ≤ s2` the tier chosen for `s2` is never finer than the
tier chosen for `s1`. -/
theorem C3_freq_monotone (s1 s2 : ℚ) (f1 f2 : String)
    (h1 : checkFreq none s1 false = .ok f1)
    (h2 : checkFreq none s2 false = .ok f2)
    (hle : s1 ≤ s2) :
    tierIndex f1 ≤ tierIndex f2 := by
  by_cases hn1 : s1 < 0
  · simp [checkFreq, hn1] at h1
  · have hn2 : ¬ s2 < 0 := fun h => hn1 (lt_of_le_of_lt hle h |>.trans_le le_rfl)
    simp [checkFreq, hn1, hn2] at h1 h2
    subst h1; subst h2
    simp only [pickFreq, freqLimits, if_false, Bool.false_eq_true]
    split_ifs with ha hb hc hd he hf <;>
      first
      | decide
      | (exfalso; linarith)

/-- Claim C3, witness: the monotonicity theorem applied at the concrete
spans of ten minutes and ten hours (tiers `10ms` and `1m`). -/
theorem C3_freq_monotone_witness :
    checkFreq none 600 false = .ok "10ms" ∧
      checkFreq none 36000 false = .ok "1m" ∧
      (600 : ℚ) ≤ 36000 ∧
      tierIndex "10ms" ≤ tierIndex "1m" := by
  refine ⟨by norm_num [checkFreq, pickFreq, freqLimits],
    by norm_num [checkFreq, pickFreq, freqLimits], by norm_num, ?_⟩
  exact C3_freq_monotone 600 36000 "10ms" "1m"
    (by norm_num [checkFreq, pickFreq, freqLimits])
    (by norm_num [checkFreq, pickFreq, freqLimits]) (by norm_num)

/-! Section: Default time window (`query_base._check_time`)

Timestamps are modelled as integer milliseconds since the Unix epoch
(UTC).  `pandas.Timestamp.toordinal()` returns the proleptic Gregorian
ordinal of the timestamp's calendar date — it truncates the time of
day — and `pandas.Timestamp.fromordinal` maps an ordinal back to
midnight UTC of that date. -/

/-- Milliseconds per day. -/
def oneDayMs : ℤ := 86400000

/-- Proleptic Gregorian ordinal of 1970-01-01, the Unix epoch. -/
def epochOrdinal : ℤ := 719163

/-- Embedding of `Timestamp.toordinal()`: the ordinal of the calendar
date holding the timestamp (floor of days since epoch, offset to the
proleptic Gregorian origin). -/
def toordinal (t : ℤ) : ℤ := t.fdiv oneDayMs + epochOrdinal

/-- Embedding of `Timestamp.fromordinal(o, tz='UTC')`: midnight UTC of
the date with ordinal `o`. -/
def fromordinal (o : ℤ) : ℤ := (o - epochOrdinal) * oneDayMs

/-- Embedding of Python `max(iterable, default=d)`: the default is used
only when the iterable is empty. -/
def pyMax (l : List ℤ) (d : ℤ) : ℤ :=
  match l with
  | [] => d
  | x :: xs => xs.foldl max x

/-- Embedding of Python `min(iterable, default=d)`. -/
def pyMin (l : List ℤ) (d : ℤ) : ℤ :=
  match l with
  | [] => d
  | x :: xs => xs.foldl min x

/-- Latest available timestamp across the requested tables' time
ranges, as computed by `_check_time`: `max((i[1] for i in ...),
default=Timestamp(iinfo(int).max))`.  (The `if i` guard never filters:
a 2-tuple is always truthy.) -/
def maxAvail (ranges : List (ℤ × ℤ)) : ℤ :=
  pyMax (ranges.map Prod.snd) 9223372036854775807

/-- Earliest available timestamp across the requested tables' time
ranges: `min((i[0] for i in ...), default=Timestamp(0))`. -/
def minAvail (ranges : List (ℤ × ℤ)) : ℤ :=
  pyMin (ranges.map Prod.fst) 0

/-- Embedding of `_check_time(start_time, end_time, tables)`: resolve a
missing end to `min(now, max over tables)` and a missing start to
`max(Timestamp.fromordinal(end.toordinal() - 14), min over tables)`.
Returns `(start, end)`. -/
def checkTime (startT endT : Option ℤ) (now : ℤ)
    (ranges : List (ℤ × ℤ)) : ℤ × ℤ :=
  let endR := match endT with
    | some e => e
    | none => min now (maxAvail ranges)
  let startR := match startT with
    | some s => s
    | none => max (fromordinal (toordinal endR - 14)) (minAvail ranges)
  (startR, endR)

/-- The initial accumulator is a lower bound of a `foldl max`. -/
lemma init_le_foldlMax : ∀ (xs : List ℤ) (x : ℤ), x ≤ xs.foldl max x
  | [], _ => le_rfl
  | a :: xs, x => le_trans (le_max_left x a) (init_le_foldlMax xs (max x a))

/-- Every list element is a lower bound of a `foldl max`. -/
lemma mem_le_foldlMax : ∀ (xs : List ℤ) (x : ℤ), ∀ y ∈ xs, y ≤ xs.foldl max x
  | a :: xs, x, y, hy => by
    rcases List.mem_cons.mp hy with h | h
    · subst h
      exact le_trans (le_max_right x y) (init_le_foldlMax xs (max x y))
    · exact mem_le_foldlMax xs (max x a) y h

/-- A `foldl max` is attained: it is the initial accumulator or a list
element. -/
lemma foldlMax_mem : ∀ (xs : List ℤ) (x : ℤ),
    xs.foldl max x = x ∨ xs.foldl max x ∈ xs
  | [], _ => Or.inl rfl
  | a :: xs, x => by
    rcases foldlMax_mem xs (max x a) with h | h
    · rcases max_choice x a with hx | hx
      · left; rw [List.foldl_cons, h, hx]
      · right; rw [List.foldl_cons, h, hx]; exact List.mem_cons_self a xs
    · right; exact List.mem_cons_of_mem a h

/-- The initial accumulator is an upper bound of a `foldl min`. -/
lemma foldlMin_le_init : ∀ (xs : List ℤ) (x : ℤ), xs.foldl min x ≤ x
  | [], _ => le_rfl
  | a :: xs, x => le_trans (foldlMin_le_init xs (min x a)) (min_le_left x a)

/-- Every list element is an upper bound of a `foldl min`. -/
lemma foldlMin_le_mem : ∀ (xs : List ℤ) (x : ℤ), ∀ y ∈ xs, xs.foldl min x ≤ y
  | a :: xs, x, y, hy => by
    rcases List.mem_cons.mp hy with h | h
    · subst h
      exact le_trans (foldlMin_le_init xs (min x y)) (min_le_right x y)
    · exact foldlMin_le_mem xs (min x a) y h

/-- A `foldl min` is attained: it is the initial accumulator or a list
element. -/
lemma foldlMin_mem : ∀ (xs : List ℤ) (x : ℤ),
    xs.foldl min x = x ∨ xs.foldl min x ∈ xs
  | [], _ => Or.inl rfl
  | a :: xs, x => by
    rcases foldlMin_mem xs (min x a) with h | h
    · rcases min_choice x a with hx | hx
      · left; rw [List.foldl_cons, h, hx]
      · right; rw [List.foldl_cons, h, hx]; exact List.mem_cons_self a xs
    · right; exact List.mem_cons_of_mem a h

/-- Claim C6, counterexample.  The claim states that a missing start
resolves to the later of *14 days before the resolved end* and the
earliest available timestamp.  The code instead goes through
`toordinal`, which truncates the end's time of day: with data spanning
`[0, day 200]` and `now` one hour into day 100, the end resolves to
`now` but the start resolves to midnight of day 86 — not `now - 14
days`, which falls one hour later. -/
theorem C6_counterexample :
    (checkTime none none (100 * 86400000 + 3600000) [(0, 200 * 86400000)]).1
        = 86 * 86400000 ∧
      max ((100 * 86400000 + 3600000) - 14 * 86400000) 0
        = 86 * 86400000 + 3600000 ∧
      (checkTime none none (100 * 86400000 + 3600000) [(0, 200 * 86400000)]).1
        ≠ max ((100 * 86400000 + 3600000) - 14 * 86400000) 0 := by
  refine ⟨?_, by norm_num, ?_⟩ <;>
    norm_num [checkTime, maxAvail, minAvail, pyMax, pyMin, toordinal,
      fromordinal, oneDayMs, epochOrdinal, Int.fdiv]

/-- Claim C6, amended: a missing end resolves to the earlier of the
current time and the latest available timestamp across the requested
tables; a missing start resolves to the later of *midnight UTC of the
calendar date 14 days before the resolved end's date* (the
`toordinal`/`fromordinal` round-trip floors the end to its date) and
the earliest available timestamp across the requested tables. -/
theorem C6_default_window (now : ℤ) (ranges : List (ℤ × ℤ))
    (h : ranges ≠ []) :
    (checkTime none none now ranges).2 = min now (maxAvail ranges) ∧
      (∀ p ∈ ranges, p.2 ≤ maxAvail ranges) ∧
      (∃ p ∈ ranges, maxAvail ranges = p.2) ∧
      (checkTime none none now ranges).1 =
        max (((min now (maxAvail ranges)).fdiv oneDayMs - 14) * oneDayMs)
          (minAvail ranges) ∧
      (∀ p ∈ ranges, minAvail ranges ≤ p.1) ∧
      (∃ p ∈ ranges, minAvail ranges = p.1) := by
  obtain ⟨p, tl, rfl⟩ : ∃ p tl, ranges = p :: tl := by
    cases ranges with
    | nil => exact absurd rfl h
    | cons p tl => exact ⟨p, tl, rfl⟩
  refine ⟨rfl, ?_, ?_, ?_, ?_, ?_⟩
  · intro q hq
    have : q.2 ∈ p.2 :: tl.map Prod.snd := by
      have := List.mem_map_of_mem Prod.snd hq
      simpa using this
    rcases List.mem_cons.mp this with h1 | h1
    · simp only [maxAvail, List.map_cons, pyMax, h1]
      exact init_le_foldlMax _ _
    · exact mem_le_foldlMax _ _ _ h1
  · rcases foldlMax_mem (tl.map Prod.snd) p.2 with h1 | h1
    · exact ⟨p, List.mem_cons_self p tl, by simpa [maxAvail, pyMax] using h1⟩
    · rcases List.mem_map.mp h1 with ⟨q, hq, hq2⟩
      exact ⟨q, List.mem_cons_of_mem p hq,
        by simpa [maxAvail, pyMax] using hq2.symm⟩
  · show max (fromordinal (toordinal (min now (maxAvail (p :: tl))) - 14))
        (minAvail (p :: tl)) = _
    rw [fromordinal, toordinal]
    ring_nf
  · intro q hq
    have : q.1 ∈ p.1 :: tl.map Prod.fst := by
      have := List.mem_map_of_mem Prod.fst hq
      simpa using this
    rcases List.mem_cons.mp this with h1 | h1
    · simp only [minAvail, List.map_cons, pyMin, h1]
      exact foldlMin_le_init _ _
    · exact foldlMin_le_mem _ _ _ h1
  · rcases foldlMin_mem (tl.map Prod.fst) p.1 with h1 | h1
    · exact ⟨p, List.mem_cons_self p tl, by simpa [minAvail, pyMin] using h1⟩
    · rcases List.mem_map.mp h1 with ⟨q, hq, hq2⟩
      exact ⟨q, List.mem_cons_of_mem p hq,
        by simpa [minAvail, pyMin] using hq2.symm⟩

/-- Claim C6, witness: the amended characterization applied to one
table with data spanning `[0, day 200]` and the current time one hour
into day 100. -/
theorem C6_default_window_witness :
    ([((0 : ℤ), (200 : ℤ) * 86400000)] ≠ []) ∧
      ((checkTime none none (100 * 86400000 + 3600000)
            [(0, 200 * 86400000)]).2
          = min (100 * 86400000 + 3600000)
              (maxAvail [(0, 200 * 86400000)]) ∧
        (∀ p ∈ [((0 : ℤ), (200 : ℤ) * 86400000)],
          p.2 ≤ maxAvail [(0, 200 * 86400000)]) ∧
        (∃ p ∈ [((0 : ℤ), (200 : ℤ) * 86400000)],
          maxAvail [(0, 200 * 86400000)] = p.2) ∧
        (checkTime none none (100 * 86400000 + 3600000)
            [(0, 200 * 86400000)]).1 =
          max (((min (100 * 86400000 + 3600000)
                  (maxAvail [(0, 200 * 86400000)])).fdiv oneDayMs - 14)
              * oneDayMs)
            (minAvail [(0, 200 * 86400000)]) ∧
        (∀ p ∈ [((0 : ℤ), (200 : ℤ) * 86400000)],
          minAvail [(0, 200 * 86400000)] ≤ p.1) ∧
        (∃ p ∈ [((0 : ℤ), (200 : ℤ) * 86400000)],
          minAvail [(0, 200 * 86400000)] = p.1)) :=
  ⟨by decide,
   C6_default_window (100 * 86400000 + 3600000) [(0, 200 * 86400000)]
     (by decide)⟩

/-! Section: Mode reducer (`db._ModeReducer`)

`series.mode()` in pandas drops nulls and returns the values of maximal
multiplicity in ascending sorted order; `_ModeReducer.__call__` returns
`NaN` for an empty series and otherwise `modes[0]`.  Missing values are
modelled by `Option` (`none` plays `NaN`), series values by any
linearly ordered type. -/

/-- Embedding of `pandas.Series.mode()` on the non-null values: the
distinct values of maximal multiplicity, in ascending order. -/
def seriesMode {α : Type} [LinearOrder α] (l : List α) : List α :=
  let maxCount := ((l.dedup).map (fun v => l.count v)).foldr max 0
  List.insertionSort (· ≤ ·)
    ((l.dedup).filter (fun v => l.count v = maxCount))

/-- Embedding of `db._ModeReducer.__call__`: `NaN` (`none`) on an empty
series, otherwise the first entry of `series.mode()` (or `NaN` if the
mode list is empty, which cannot happen for non-null values). -/
def modeReducer {α : Type} [LinearOrder α] (l : List α) : Option α :=
  if l = [] then none else (seriesMode l).head?

/-- Every entry of a list of naturals is bounded by its `foldr max 0`. -/
lemma le_foldrMax : ∀ (ns : List ℕ), ∀ n ∈ ns, n ≤ ns.foldr max 0
  | a :: ns, n, hn => by
    rcases List.mem_cons.mp hn with h | h
    · subst h; exact le_max_left n (ns.foldr max 0)
    · exact le_trans (le_foldrMax ns n h) (le_max_right a (ns.foldr max 0))

/-- A `foldr max 0` over naturals is `0` or attained in the list. -/
lemma foldrMax_attained : ∀ ns : List ℕ,
    ns.foldr max 0 = 0 ∨ ns.foldr max 0 ∈ ns
  | [] => Or.inl rfl
  | a :: ns => by
    rcases max_choice a (ns.foldr max 0) with h | h
    · right; rw [List.foldr_cons, h]; exact List.mem_cons_self a ns
    · rcases foldrMax_attained ns with h0 | hmem
      · left; rw [List.foldr_cons, h, h0]
      · right; rw [List.foldr_cons, h]; exact List.mem_cons_of_mem a hmem

/-- The head of an ascending insertion sort of a non-empty list is a
member that bounds every member from below. -/
lemma insertionSort_head_min {α : Type} [LinearOrder α] (l : List α)
    (hl : l ≠ []) :
    ∃ m, (List.insertionSort (· ≤ ·) l).head? = some m ∧ m ∈ l ∧
      ∀ b ∈ l, m ≤ b := by
  have hperm := List.perm_insertionSort (α := α) (· ≤ ·) l
  have hsorted := List.sorted_insertionSort (α := α) (· ≤ ·) l
  cases hs : List.insertionSort (α := α) (· ≤ ·) l with
  | nil =>
      exact absurd (List.Perm.eq_nil ((hs ▸ hperm).symm)) hl
  | cons m rest =>
      rw [hs] at hperm hsorted
      rcases List.sorted_cons.mp hsorted with ⟨hhead, _⟩
      refine ⟨m, rfl, hperm.mem_iff.mp (List.mem_cons_self m rest), ?_⟩
      intro b hb
      rcases List.mem_cons.mp (hperm.mem_iff.mpr hb) with h | h
      · exact h ▸ le_rfl
      · exact hhead b h

/-- The mode reducer of a non-empty series returns a member of maximal
multiplicity that is minimal among the tied values. -/
lemma modeReducer_spec {α : Type} [LinearOrder α] (l : List α)
    (hl : l ≠ []) :
    ∃ m, modeReducer l = some m ∧ m ∈ l ∧
      (∀ v ∈ l, l.count v ≤ l.count m) ∧
      (∀ v ∈ l, l.count v = l.count m → m ≤ v) := by
  set maxCount := ((l.dedup).map (fun v => l.count v)).foldr max 0 with hmc
  have hboundAll : ∀ v ∈ l, l.count v ≤ maxCount := by
    intro v hv
    exact le_foldrMax _ _ (List.mem_map_of_mem _ (List.mem_dedup.mpr hv))
  have hattained : ∃ v ∈ l.dedup, l.count v = maxCount := by
    rcases foldrMax_attained ((l.dedup).map (fun v => l.count v)) with h0 | hm
    · exfalso
      rcases List.exists_mem_of_ne_nil l hl with ⟨a, ha⟩
      have h1 : 1 ≤ l.count a := List.one_le_count_iff.mpr ha
      have := hboundAll a ha
      omega
    · rcases List.mem_map.mp hm with ⟨v, hv, hve⟩
      exact ⟨v, hv, hve⟩
  have hfilterne :
      (l.dedup).filter (fun v => l.count v = maxCount) ≠ [] := by
    rcases hattained with ⟨v, hv, hve⟩
    intro hcontra
    have : v ∈ (l.dedup).filter (fun v => l.count v = maxCount) :=
      List.mem_filter.mpr ⟨hv, by simpa using hve⟩
    rw [hcontra] at this
    exact List.not_mem_nil v this
  rcases insertionSort_head_min _ hfilterne with ⟨m, hhead, hmem, hmin⟩
  rcases List.mem_filter.mp hmem with ⟨hmdedup, hmcount⟩
  have hmcount' : l.count m = maxCount := by simpa using hmcount
  refine ⟨m, ?_, List.mem_dedup.mp hmdedup, ?_, ?_⟩
  · rw [modeReducer, if_neg hl, seriesMode, ← hmc]
    exact hhead
  · intro v hv
    rw [hmcount']
    exact hboundAll v hv
  · intro v hv hcount
    exact hmin v (List.mem_filter.mpr
      ⟨List.mem_dedup.mpr hv, by simp [hcount, hmcount']⟩)

/-- Claim C4: the mode reducer returns `NaN` (`none`) on an empty
series; on a non-empty series it returns a most frequent value that is
first in the values' natural (ascending) order among ties; in
particular `mode([x, x, y]) = x`. -/
theorem C4_mode {α : Type} [LinearOrder α] (x y : α) (l : List α)
    (hl : l ≠ []) :
    modeReducer ([] : List α) = none ∧
      (∃ m, modeReducer l = some m ∧ m ∈ l ∧
        (∀ v ∈ l, l.count v ≤ l.count m) ∧
        (∀ v ∈ l, l.count v = l.count m → m ≤ v)) ∧
      modeReducer [x, x, y] = some x := by
  refine ⟨rfl, modeReducer_spec l hl, ?_⟩
  rcases modeReducer_spec [x, x, y] (by simp) with
    ⟨m, hm, hmem, hcount, _⟩
  by_cases hxy : x = y
  · subst hxy
    have : m = x := by
      rcases List.mem_cons.mp hmem with h | h
      · exact h
      · rcases List.mem_cons.mp h with h2 | h2
        · exact h2
        · simpa using h2
    rw [hm, this]
  · have hmx : m = x := by
      rcases List.mem_cons.mp hmem with h | h
      · exact h
      rcases List.mem_cons.mp h with h2 | h2
      · exact h2
      have hmy : m = y := by simpa using h2
      exfalso
      have hcx : List.count x [x, x, y] = 2 := by
        simp [List.count_cons, hxy]
      have hcy : List.count y [x, x, y] = 1 := by
        simp [List.count_cons, hxy, Ne.symm hxy]
      have := hcount x (List.mem_cons_self x [x, y])
      rw [hcx, hmy, hcy] at this
      omega
    rw [hm, hmx]

/-- Claim C4, witness: the mode theorem applied to the concrete integer
series `[5, 3, 5]` (and the tie of clause three instantiated at
`x = 2`, `y = 7`). -/
theorem C4_mode_witness :
    ([(5 : ℤ), 3, 5] ≠ []) ∧
      (modeReducer ([] : List ℤ) = none ∧
        (∃ m, modeReducer [(5 : ℤ), 3, 5] = some m ∧ m ∈ [(5 : ℤ), 3, 5] ∧
          (∀ v ∈ [(5 : ℤ), 3, 5],
            List.count v [(5 : ℤ), 3, 5] ≤ List.count m [(5 : ℤ), 3, 5]) ∧
          (∀ v ∈ [(5 : ℤ), 3, 5],
            List.count v [(5 : ℤ), 3, 5] = List.count m [(5 : ℤ), 3, 5] →
              m ≤ v)) ∧
        modeReducer [(2 : ℤ), 2, 7] = some 2) :=
  ⟨by decide, C4_mode 2 7 [(5 : ℤ), 3, 5] (by decide)⟩

/-! Section: Result sets and the outer-join merger (`query_base.getdf`,
`_result_set_to_df`)

A DataFrame is modelled as a column-name list plus rows; a row is an
association list from column name to cell value, where an absent
column reads as null (pandas `NaN`).  `pd.merge(how='outer')` joins two
frames on all columns they have in common (null keys match null keys,
as in pandas), keeps unmatched rows of either side null-padded, and
concatenates the left frame's columns with the right frame's new
ones. -/

/-- Cell value of a result table: an integer (timestamps, numeric
readings), a string (tags, categorical labels), or null (pandas
`NaN`/`None`). -/
inductive Val
| int (z : ℤ)
| str (s : String)
| null
deriving DecidableEq, Repr

/-- A row of a frame: an association list from column name to value. -/
abbrev Record := List (String × Val)

/-- Value of a record at a column: first binding wins, absent columns
read as null. -/
def valAt : Record → String → Val
  | [], _ => .null
  | (k, v) :: rest, c => if k = c then v else valAt rest c

/-- A DataFrame: its column names and its rows. -/
structure DF where
  cols : List String
  rows : List Record
deriving DecidableEq, Repr

/-- Column list of `pd.merge(A, B)`: A's columns followed by B's
columns that A lacks (no renaming or table-qualification happens). -/
def mergedCols (c1 c2 : List String) : List String :=
  c1 ++ c2.filter (fun c => c ∉ c1)

/-- The join keys of `pd.merge(A, B)` with no `on=` argument: the
columns the two frames have in common. -/
def sharedCols (c1 c2 : List String) : List String :=
  c1.filter (fun c => c ∈ c2)

/-- Whether a left row and a right row agree on every join key (pandas
merges null keys with null keys). -/
def rowsMatch (c1 c2 : List String) (l r : Record) : Bool :=
  (sharedCols c1 c2).all (fun c => valAt l c = valAt r c)

/-- The combined row for a matching pair: left values on the left
frame's columns, right values on the rest. -/
def joinRow (c1 c2 : List String) (l r : Record) : Record :=
  (mergedCols c1 c2).map
    (fun c => (c, if c ∈ c1 then valAt l c else valAt r c))

/-- An unmatched left row in the merged frame: null-padded on the
right-only columns. -/
def leftOnlyRow (c1 c2 : List String) (l : Record) : Record :=
  (mergedCols c1 c2).map
    (fun c => (c, if c ∈ c1 then valAt l c else Val.null))

/-- An unmatched right row in the merged frame: null-padded on the
left-only columns (its join-key values are kept). -/
def rightOnlyRow (c1 c2 : List String) (r : Record) : Record :=
  (mergedCols c1 c2).map
    (fun c => (c, if c ∈ c2 then valAt r c else Val.null))

/-- Embedding of one `pd.merge(how='outer')` step of the
`reduce(partial(pd.merge, how='outer'), dfs)` chain in `getdf`: all
matching pairs, then unmatched left rows, then unmatched right rows. -/
def mergeDF (A B : DF) : DF :=
  { cols := mergedCols A.cols B.cols
    rows :=
      (A.rows.flatMap fun l =>
        (B.rows.filter (fun r => rowsMatch A.cols B.cols l r)).map
          (joinRow A.cols B.cols l)) ++
      ((A.rows.filter fun l =>
          !(B.rows.any (fun r => rowsMatch A.cols B.cols l r))).map
        (leftOnlyRow A.cols B.cols)) ++
      ((B.rows.filter fun r =>
          !(A.rows.any (fun l => rowsMatch A.cols B.cols l r))).map
        (rightOnlyRow A.cols B.cols)) }

/-- Embedding of `reduce(partial(pd.merge, how='outer'), dfs)`: the
left fold of the non-empty frame list. -/
def mergeAll : List DF → DF
  | [] => ⟨[], []⟩
  | d :: rest => rest.foldl mergeDF d

/-- One tagged series of an InfluxDB `ResultSet`: a measurement name
(`table_freq`), the fixed tag values of the group, and the data rows. -/
structure Series where
  measurement : String
  tags : List (String × String)
  rows : List Record
deriving DecidableEq, Repr

/-- Decoding of the `DeviceMode` integer enum by
`modem.__transform__` (`dict(enumerate((...), 1))`). -/
def decodeDeviceMode : Val → Val
  | .int 1 => .str "unknown"
  | .int 2 => .str "disconnected"
  | .int 3 => .str "no_service"
  | .int 4 => .str "2G"
  | .int 5 => .str "3G"
  | .int 6 => .str "LTE"
  | v => v

/-- Decoding of the `DeviceState` integer enum by
`modem.__transform__` (`dict(enumerate((...)))`). -/
def decodeDeviceState : Val → Val
  | .int 0 => .str "unknown"
  | .int 1 => .str "registered"
  | .int 2 => .str "unregistered"
  | .int 3 => .str "connected"
  | .int 4 => .str "disconnected"
  | v => v

/-- Embedding of `_Table.__transform__` dispatched on the table name
(`measurement.split('_')[0]`): only `modem` overrides it, decoding the
`DeviceMode`/`DeviceState` enums; every other table is the identity. -/
def transformRecord (tableName : String) (r : Record) : Record :=
  if tableName = "modem" then
    r.map (fun p =>
      if p.1 = "DeviceMode" then (p.1, decodeDeviceMode p.2)
      else if p.1 = "DeviceState" then (p.1, decodeDeviceState p.2)
      else p)
  else r

/-- The table name owning a measurement:
`measurement.split('_')[0]`, i.e. the characters before the first
underscore. -/
def measurementBase (m : String) : String :=
  ⟨m.data.takeWhile (fun c => c ≠ '_')⟩

/-- The per-series frame built inside `_result_set_to_df`:
`pd.DataFrame(list(rows))`, tag columns appended (`df[tag] = value`),
then the table's `__transform__` hook.  The column list is the series'
row columns followed by the tag names. -/
def seriesToDf (colNames : List String) (s : Series) : DF :=
  { cols := colNames ++ s.tags.map Prod.fst
    rows := s.rows.map (fun r =>
      transformRecord (measurementBase s.measurement)
        (r ++ s.tags.map (fun p => (p.1, Val.str p.2)))) }

/-- Column list of a series' rows: the keys of the first row (every
row of one series shares the same columns). -/
def seriesCols (s : Series) : List String :=
  ((s.rows.headD []).map Prod.fst)

/-- Embedding of `_result_set_to_df`: `None` for a result set with no
series, otherwise the concatenation (`pd.concat`) of the per-series
frames — columns are unioned in order of first appearance, rows are
stacked. -/
def resultSetToDf (rs : List Series) : Option DF :=
  match rs with
  | [] => none
  | _ =>
      let dfs := rs.map (fun s => seriesToDf (seriesCols s) s)
      some { cols := dfs.foldl
               (fun acc d => acc ++ d.cols.filter (fun c => c ∉ acc)) []
             rows := (dfs.map DF.rows).flatten }

/-- Time index key of a row (`df.time`, milliseconds). -/
def timeKey (r : Record) : ℤ :=
  match valAt r "time" with
  | .int z => z
  | _ => 0

/-- Ordering of rows by their time index. -/
def timeLe (a b : Record) : Prop := timeKey a ≤ timeKey b

instance : DecidableRel timeLe := fun _ _ => Int.decLe _ _

instance : IsTotal Record timeLe := ⟨fun a b => le_total (timeKey a) (timeKey b)⟩

instance : IsTrans Record timeLe := ⟨fun _ _ _ => le_trans⟩

/-- The final table returned by `getdf`: indexed by time (the `time`
column is moved to the index) and sorted ascending; the index values
are kept inside the records. -/
structure ResultTable where
  cols : List String
  rows : List Record
deriving DecidableEq, Repr

/-- Embedding of the tail of `getdf`: `df.set_index('time')` followed
by `df.sort_index()` (the dtype normalization between merge and
indexing does not touch column names and is omitted). -/
def setIndexSortTime (df : DF) : ResultTable :=
  ⟨df.cols.erase "time", List.insertionSort timeLe df.rows⟩

/-- Embedding of the frame assembly in `getdf` (lines 201-230): one
optional frame per result set, the empty `pd.DataFrame()` if none
remain, otherwise the outer-join fold, indexed and sorted by time. -/
def getdfMerge (rowsets : List (List Series)) : ResultTable :=
  match rowsets.filterMap resultSetToDf with
  | [] => ⟨[], []⟩
  | d :: rest => setIndexSortTime (rest.foldl mergeDF d)

/-! Section: Batch executor (`query_base.query_async` and the fetch loop) -/

/-- Outcome of one dispatched query, as observed by the `as_completed`
loop of `query_async`: a result set, a transport failure
(`RequestException`), or exceeding the batch deadline of
`_timeout + 1` seconds (`futures.TimeoutError`). -/
inductive QueryOutcome
| ok (rs : List Series)
| transportError
| timedOut
deriving DecidableEq, Repr

/-- Whether an outcome aborts the batch. -/
def QueryOutcome.isFailure : QueryOutcome → Bool
  | .ok _ => false
  | _ => true

/-- Embedding of the `query_async` generator consumed by `getdf`: the
outcomes are processed in completion order; each successful result is
yielded, and the first transport failure or deadline overrun raises,
aborting the whole batch. -/
def runBatch : List QueryOutcome → Except String (List (List Series))
  | [] => .ok []
  | .ok rs :: rest => (runBatch rest).map (fun tl => rs :: tl)
  | .transportError :: _ => .error "RequestException"
  | .timedOut :: _ => .error "TimeoutError"

/-- The fetch loop of `getdf`: consume the batch; on a raised error the
exception propagates out of `getdf` (no table is returned), otherwise
build the merged table from the collected result sets. -/
def getdfRun (completion : List QueryOutcome) : Except String ResultTable :=
  match runBatch completion with
  | .error e => .error e
  | .ok rss => .ok (getdfMerge rss)

/-! Section: Claim C5: all-or-nothing batch -/

/-- A batch whose completion order reaches a failing outcome raises. -/
lemma runBatch_error_of_failure :
    ∀ completion : List QueryOutcome,
      (∃ o ∈ completion, o.isFailure = true) →
      ∃ e, runBatch completion = .error e
  | [], h => by simp at h
  | QueryOutcome.ok rs :: rest, h => by
    have hrest : ∃ o ∈ rest, o.isFailure = true := by
      rcases h with ⟨o, ho, hf⟩
      rcases List.mem_cons.mp ho with rfl | ho'
      · simp [QueryOutcome.isFailure] at hf
      · exact ⟨o, ho', hf⟩
    rcases runBatch_error_of_failure rest hrest with ⟨e, he⟩
    exact ⟨e, by simp [runBatch, he, Except.map]⟩
  | QueryOutcome.transportError :: _, _ => ⟨"RequestException", rfl⟩
  | QueryOutcome.timedOut :: _, _ => ⟨"TimeoutError", rfl⟩

/-- Claim C5: if any query of a dispatched batch times out against the
batch deadline or fails with a transport error, then whatever order
the outcomes complete in, the whole fetch aborts with an error and no
table — in particular no partial merge of sibling results — is
returned. -/
theorem C5_all_or_nothing (batch completion : List QueryOutcome)
    (hperm : completion.Perm batch)
    (hbad : ∃ o ∈ batch, o.isFailure = true) :
    ∃ e, getdfRun completion = .error e := by
  have hbad' : ∃ o ∈ completion, o.isFailure = true := by
    rcases hbad with ⟨o, ho, hf⟩
    exact ⟨o, hperm.mem_iff.mpr ho, hf⟩
  rcases runBatch_error_of_failure completion hbad' with ⟨e, he⟩
  exact ⟨e, by simp [getdfRun, he]⟩

/-- Claim C5, witness: a two-query batch of one successful and one
transport-failed query, completing in the reverse of submission
order. -/
theorem C5_all_or_nothing_witness :
    ([QueryOutcome.transportError, QueryOutcome.ok []].Perm
        [QueryOutcome.ok [], QueryOutcome.transportError]) ∧
      (∃ o ∈ [QueryOutcome.ok [], QueryOutcome.transportError],
        o.isFailure = true) ∧
      ∃ e, getdfRun [QueryOutcome.transportError, QueryOutcome.ok []]
          = .error e :=
  ⟨List.Perm.swap (QueryOutcome.ok []) QueryOutcome.transportError [],
   ⟨QueryOutcome.transportError, by decide⟩,
   C5_all_or_nothing [QueryOutcome.ok [], QueryOutcome.transportError]
     [QueryOutcome.transportError, QueryOutcome.ok []]
     (List.Perm.swap (QueryOutcome.ok []) QueryOutcome.transportError [])
     ⟨QueryOutcome.transportError, by decide⟩⟩

/-! Section: Claim C10: empty results are not a failure -/

/-- A batch of only empty-result queries succeeds with only empty
result sets. -/
lemma runBatch_all_ok :
    ∀ completion : List QueryOutcome,
      (∀ o ∈ completion, o = QueryOutcome.ok []) →
      ∃ rss, runBatch completion = .ok rss ∧ ∀ rs ∈ rss, rs = []
  | [], _ => ⟨[], rfl, by simp⟩
  | o :: rest, h => by
    have ho := h o (List.mem_cons_self o rest)
    subst ho
    rcases runBatch_all_ok rest
        (fun o ho => h o (List.mem_cons_of_mem _ ho)) with ⟨rss, hr, hall⟩
    refine ⟨[] :: rss, by simp [runBatch, hr, Except.map], ?_⟩
    intro rs hrs
    rcases List.mem_cons.mp hrs with rfl | hrs'
    · rfl
    · exact hall rs hrs'

/-- Empty result sets contribute no frame. -/
lemma filterMap_resultSet_nil :
    ∀ rss : List (List Series), (∀ rs ∈ rss, rs = []) →
      rss.filterMap resultSetToDf = []
  | [], _ => rfl
  | rs :: rest, h => by
    have h0 := h rs (List.mem_cons_self rs rest)
    subst h0
    have := filterMap_resultSet_nil rest
      (fun rs hrs => h rs (List.mem_cons_of_mem _ hrs))
    simp [resultSetToDf, this]

/-- Claim C10: when every executed query of a validated fetch returns
an empty result set, the fetch returns the empty table rather than
raising — absence of data is not a failure. -/
theorem C10_empty_results_ok (completion : List QueryOutcome)
    (h : ∀ o ∈ completion, o = QueryOutcome.ok []) :
    getdfRun completion = .ok ⟨[], []⟩ := by
  rcases runBatch_all_ok completion h with ⟨rss, hr, hall⟩
  rw [getdfRun, hr]
  simp [getdfMerge, filterMap_resultSet_nil rss hall]

/-- Claim C10, witness: a batch of two queries both returning empty
result sets. -/
theorem C10_empty_results_ok_witness :
    (∀ o ∈ [QueryOutcome.ok [], QueryOutcome.ok []],
        o = QueryOutcome.ok []) ∧
      getdfRun [QueryOutcome.ok [], QueryOutcome.ok []] = .ok ⟨[], []⟩ :=
  ⟨by decide,
   C10_empty_results_ok [QueryOutcome.ok [], QueryOutcome.ok []] (by decide)⟩

/-! Section: Claim C2: column naming of the merged table -/

/-- A `ping` result set for node 109 (columns `time, RTT, Operator`,
tags `NodeId, Iccid`), as in the repository's test fixtures. -/
def pingSeries109 : Series :=
  ⟨"ping_10ms", [("NodeId", "109"), ("Iccid", "1234")],
   [[("time", .int 1504210000000), ("RTT", .int 100),
     ("Operator", .str "Orange")],
    [("time", .int 1504230000000), ("RTT", .int 150),
     ("Operator", .str "Orange")]]⟩

/-- A `modem` result set for node 109 (columns `time, Interface`, tags
`NodeId, Iccid`). -/
def modemSeries109 : Series :=
  ⟨"modem_10ms", [("NodeId", "109"), ("Iccid", "1234")],
   [[("time", .int 1504220000000), ("Interface", .str "op0")]]⟩

/-- The merged table of the fetch `getdf(['ping', 'modem'],
nodeid='109')` on the two result sets above. -/
def fetch109 : ResultTable := getdfMerge [[pingSeries109], [modemSeries109]]

/-- Claim C2, counterexample.  The claim states that non-key field
columns of the merged table are table-qualified (`ping_RTT`,
`ping_Operator`, `modem_Interface`).  Neither `_result_set_to_df` nor
the merge renames any column: the fetch above returns the bare names
`RTT`, `Operator`, `Interface`, and none of the qualified names
occur. -/
theorem C2_counterexample :
    "ping_RTT" ∉ fetch109.cols ∧
      "ping_Operator" ∉ fetch109.cols ∧
      "modem_Interface" ∉ fetch109.cols ∧
      "RTT" ∈ fetch109.cols := by
  decide

/-- Claim C2, amended: merged columns keep their bare field names —
`pd.merge` appends the right frame's new columns to the left frame's,
with no table-qualification; same-named columns of different tables do
not collide because they are the join keys.  The fetch of `ping` and
`modem` for node 109 yields the columns
`RTT, Operator, NodeId, Iccid, Interface`, indexed by time and sorted
ascending. -/
theorem C2_merged_columns :
    (∀ A B : DF, (mergeDF A B).cols =
      A.cols ++ B.cols.filter (fun c => c ∉ A.cols)) ∧
      fetch109.cols = ["RTT", "Operator", "NodeId", "Iccid", "Interface"] ∧
      List.Sorted timeLe fetch109.rows ∧
      (fetch109.rows.map timeKey) =
        [1504210000000, 1504220000000, 1504230000000] := by
  refine ⟨fun A B => rfl, ?_, ?_, ?_⟩ <;> decide

/-! Section: Claim C8: order-(in)dependence of the merge

Two merged tables have the same row content up to sorting exactly when
their canonical forms agree: project every row onto the ascending
deduplicated column list and compare the resulting value lists as
multisets. -/

/-- Canonical column order of a frame: ascending, without
duplicates. -/
def canonCols (cols : List String) : List String :=
  List.insertionSort (· ≤ ·) cols.dedup

/-- A row projected onto the canonical column order. -/
def canonRecord (cols : List String) (r : Record) : List Val :=
  (canonCols cols).map (valAt r)

/-- The row content of a frame, independent of row order and column
order. -/
def canonRows (df : DF) : Multiset (List Val) :=
  (df.rows.map (canonRecord df.cols) : List (List Val))

/-- Value lookup in a record built by tabulating a function over a
column list. -/
lemma valAt_mapIf (cols : List String) (f : String → Val) (c : String) :
    valAt (cols.map (fun c => (c, f c))) c =
      if c ∈ cols then f c else Val.null := by
  induction cols with
  | nil => simp [valAt]
  | cons a tl ih =>
      by_cases h : a = c
      · subst h; simp [valAt]
      · simp [valAt, h, ih, Ne.symm h]

/-- Membership in the merged column list. -/
lemma mem_mergedCols {c1 c2 : List String} {c : String} :
    c ∈ mergedCols c1 c2 ↔ c ∈ c1 ∨ c ∈ c2 := by
  simp only [mergedCols, List.mem_append, List.mem_filter,
    decide_eq_true_eq]
  by_cases h : c ∈ c1 <;> simp [h]

/-- Membership in the join-key list. -/
lemma mem_sharedCols {c1 c2 : List String} {c : String} :
    c ∈ sharedCols c1 c2 ↔ c ∈ c1 ∧ c ∈ c2 := by
  simp [sharedCols, List.mem_filter]

/-- Membership in the canonical column order is membership in the
original column list. -/
lemma mem_canonCols {cs : List String} {a : String} :
    a ∈ canonCols cs ↔ a ∈ cs := by
  rw [canonCols, (List.perm_insertionSort _ _).mem_iff, List.mem_dedup]

/-- The canonical column order of a merge does not depend on the order
of the two frames. -/
lemma canonCols_merge_comm (c1 c2 : List String) :
    canonCols (mergedCols c1 c2) = canonCols (mergedCols c2 c1) := by
  apply List.eq_of_perm_of_sorted (r := (· ≤ ·))
  · have h1 : (canonCols (mergedCols c1 c2)).Nodup :=
      ((List.perm_insertionSort _ _).nodup_iff).mpr (List.nodup_dedup _)
    have h2 : (canonCols (mergedCols c2 c1)).Nodup :=
      ((List.perm_insertionSort _ _).nodup_iff).mpr (List.nodup_dedup _)
    rw [List.perm_ext_iff_of_nodup h1 h2]
    intro a
    rw [mem_canonCols, mem_canonCols, mem_mergedCols, mem_mergedCols]
    exact or_comm
  · exact List.sorted_insertionSort _ _
  · exact List.sorted_insertionSort _ _

/-- Join-key agreement is symmetric in the two frames. -/
lemma rowsMatch_symm (c1 c2 : List String) (l r : Record) :
    rowsMatch c2 c1 r l = rowsMatch c1 c2 l r := by
  rw [Bool.eq_iff_iff]
  simp only [rowsMatch, List.all_eq_true, decide_eq_true_eq]
  constructor
  · intro h c hc
    exact (h c (mem_sharedCols.mpr (And.comm.mp (mem_sharedCols.mp hc)))).symm
  · intro h c hc
    exact (h c (mem_sharedCols.mpr (And.comm.mp (mem_sharedCols.mp hc)))).symm

/-- Pointwise `any` congruence. -/
lemma any_congr_mem {α : Type} (l : List α) (p q : α → Bool)
    (h : ∀ x ∈ l, p x = q x) : l.any p = l.any q := by
  rw [Bool.eq_iff_iff]
  simp only [List.any_eq_true]
  constructor
  · rintro ⟨x, hx, hp⟩; exact ⟨x, hx, (h x hx) ▸ hp⟩
  · rintro ⟨x, hx, hq⟩; exact ⟨x, hx, (h x hx).symm ▸ hq⟩

/-- The canonical form of a matched combined row does not depend on the
order of the two frames. -/
lemma canonRecord_joinRow_comm (c1 c2 : List String) (l r : Record)
    (h : rowsMatch c1 c2 l r = true) :
    canonRecord (mergedCols c1 c2) (joinRow c1 c2 l r) =
      canonRecord (mergedCols c2 c1) (joinRow c2 c1 r l) := by
  have hm : ∀ c ∈ sharedCols c1 c2, valAt l c = valAt r c := by
    simpa [rowsMatch, List.all_eq_true] using h
  unfold canonRecord
  rw [canonCols_merge_comm]
  apply List.map_congr_left
  intro c hc
  have hc2 : c ∈ c2 ∨ c ∈ c1 := mem_mergedCols.mp (mem_canonCols.mp hc)
  have hm21 : c ∈ mergedCols c2 c1 := mem_mergedCols.mpr hc2
  have hm12 : c ∈ mergedCols c1 c2 := mem_mergedCols.mpr (Or.comm.mp hc2)
  rw [joinRow, valAt_mapIf, joinRow, valAt_mapIf, if_pos hm12, if_pos hm21]
  by_cases h1 : c ∈ c1 <;> by_cases h2 : c ∈ c2
  · rw [if_pos h1, if_pos h2]
    exact hm c (mem_sharedCols.mpr ⟨h1, h2⟩)
  · rw [if_pos h1, if_neg h2]
  · rw [if_neg h1, if_pos h2]
  · rcases hc2 with h | h <;> [exact absurd h h2; exact absurd h h1]

/-- The canonical form of an unmatched row is the same whether it is
null-padded as a left row or as a right row. -/
lemma canonRecord_onlyRow_comm (c1 c2 : List String) (x : Record) :
    canonRecord (mergedCols c1 c2) (leftOnlyRow c1 c2 x) =
      canonRecord (mergedCols c2 c1) (rightOnlyRow c2 c1 x) := by
  unfold canonRecord
  rw [canonCols_merge_comm]
  apply List.map_congr_left
  intro c hc
  rw [leftOnlyRow, valAt_mapIf, rightOnlyRow, valAt_mapIf]
  have hcm : c ∈ mergedCols c2 c1 := mem_canonCols.mp hc
  have hcm' : c ∈ mergedCols c1 c2 :=
    mem_mergedCols.mpr (Or.comm.mp (mem_mergedCols.mp hcm))
  rw [if_pos hcm', if_pos hcm]

/-- Pointwise `flatMap` congruence. -/
lemma flatMap_congr_mem {α β : Type} :
    ∀ (l : List α) (f g : α → List β), (∀ a ∈ l, f a = g a) →
      l.flatMap f = l.flatMap g
  | [], _, _, _ => rfl
  | a :: tl, f, g, h => by
    rw [List.flatMap_cons, List.flatMap_cons,
      h a (List.mem_cons_self a tl),
      flatMap_congr_mem tl f g (fun x hx => h x (List.mem_cons_of_mem _ hx))]

/-- A `flatMap` of guarded singletons is a filtered map. -/
lemma flatMap_if_singleton {α β : Type} (q : α → Bool) (h : α → β) :
    ∀ l : List α,
      (l.flatMap fun a => if q a then [h a] else []) = (l.filter q).map h
  | [] => rfl
  | a :: tl => by
    cases hq : q a <;>
      simp [List.flatMap_cons, List.filter_cons, hq,
        flatMap_if_singleton q h tl]

/-- A `flatMap` of appended blocks is a permutation of the appended
`flatMap`s. -/
lemma flatMap_append_split {α β : Type} (f g : α → List β) :
    ∀ l : List α,
      (l.flatMap fun a => f a ++ g a).Perm (l.flatMap f ++ l.flatMap g)
  | [] => List.Perm.refl _
  | a :: tl => by
    rw [List.flatMap_cons, List.flatMap_cons, List.flatMap_cons]
    refine ((flatMap_append_split f g tl).append_left (f a ++ g a)).trans ?_
    have key : (g a ++ (tl.flatMap f ++ tl.flatMap g)).Perm
        (tl.flatMap f ++ (g a ++ tl.flatMap g)) := by
      rw [← List.append_assoc, ← List.append_assoc]
      exact List.perm_append_comm.append_right _
    have hfa := key.append_left (f a)
    simpa [List.append_assoc] using hfa

/-- Exchanging the nesting order of a filtered double loop permutes its
output: looping over `la` and picking matching partners from `lb`
yields the same pairs as looping over `lb` and picking matching
partners from `la`. -/
lemma flatMap_filter_map_swap {α β γ : Type}
    (p : α → β → Bool) (f : α → β → γ) :
    ∀ (la : List α) (lb : List β),
      ((la.flatMap fun a => ((lb.filter (fun b => p a b)).map
          (fun b => f a b)))).Perm
        (lb.flatMap fun b => ((la.filter (fun a => p a b)).map
          (fun a => f a b)))
  | [], lb => by
    have : (lb.flatMap fun b =>
        ((([] : List α).filter (fun a => p a b)).map (fun a => f a b))) = [] := by
      simp
    rw [this, List.flatMap_nil]
  | a :: la, lb => by
    rw [List.flatMap_cons]
    have hsplit : (lb.flatMap fun b =>
        (((a :: la).filter (fun x => p x b)).map (fun x => f x b))) =
        lb.flatMap fun b =>
          (if p a b then [f a b] else []) ++
            ((la.filter (fun x => p x b)).map (fun x => f x b)) := by
      apply flatMap_congr_mem
      intro b _
      cases hq : p a b <;> simp [List.filter_cons, hq]
    rw [hsplit]
    refine List.Perm.trans ?_ (flatMap_append_split _ _ lb).symm
    rw [flatMap_if_singleton]
    exact (flatMap_filter_map_swap p f la lb).append_left _

/-- Claim C8, amended, core lemma: a single outer merge of two frames
has order-independent row content — `merge(A, B)` and `merge(B, A)`
hold the same multiset of canonical rows. -/
lemma mergeDF_comm_canon (A B : DF) :
    canonRows (mergeDF A B) = canonRows (mergeDF B A) := by
  unfold canonRows mergeDF
  apply Multiset.coe_eq_coe.mpr
  simp only [List.map_append]
  set c1 := A.cols
  set c2 := B.cols
  have hmatched :
      ((A.rows.flatMap fun l =>
          (B.rows.filter (fun r => rowsMatch c1 c2 l r)).map
            (joinRow c1 c2 l)).map (canonRecord (mergedCols c1 c2))).Perm
        ((B.rows.flatMap fun r =>
          (A.rows.filter (fun l => rowsMatch c2 c1 r l)).map
            (joinRow c2 c1 r)).map (canonRecord (mergedCols c2 c1))) := by
    rw [List.map_flatMap, List.map_flatMap]
    have lhs_eq : (A.rows.flatMap fun l =>
        ((B.rows.filter (fun r => rowsMatch c1 c2 l r)).map
          (joinRow c1 c2 l)).map (canonRecord (mergedCols c1 c2))) =
        A.rows.flatMap fun l =>
          (B.rows.filter (fun r => rowsMatch c1 c2 l r)).map
            (fun r => canonRecord (mergedCols c1 c2) (joinRow c1 c2 l r)) := by
      apply flatMap_congr_mem; intro l _; rw [List.map_map]; rfl
    have rhs_eq : (B.rows.flatMap fun r =>
        ((A.rows.filter (fun l => rowsMatch c2 c1 r l)).map
          (joinRow c2 c1 r)).map (canonRecord (mergedCols c2 c1))) =
        B.rows.flatMap fun r =>
          (A.rows.filter (fun l => rowsMatch c1 c2 l r)).map
            (fun l => canonRecord (mergedCols c1 c2) (joinRow c1 c2 l r)) := by
      apply flatMap_congr_mem
      intro r _
      rw [List.map_map]
      rw [List.filter_congr (fun l _ => rowsMatch_symm c1 c2 l r)]
      apply List.map_congr_left
      intro l hl
      have hmatch : rowsMatch c1 c2 l r = true :=
        (List.mem_filter.mp hl).2
      exact (canonRecord_joinRow_comm c1 c2 l r hmatch).symm
    rw [lhs_eq, rhs_eq]
    exact flatMap_filter_map_swap
      (fun l r => rowsMatch c1 c2 l r)
      (fun l r => canonRecord (mergedCols c1 c2) (joinRow c1 c2 l r))
      A.rows B.rows
  have hleft :
      ((A.rows.filter fun l =>
          !(B.rows.any (fun r => rowsMatch c1 c2 l r))).map
        (leftOnlyRow c1 c2)).map (canonRecord (mergedCols c1 c2)) =
        ((A.rows.filter fun r =>
          !(B.rows.any (fun l => rowsMatch c2 c1 l r))).map
        (rightOnlyRow c2 c1)).map (canonRecord (mergedCols c2 c1)) := by
    rw [List.map_map, List.map_map]
    rw [List.filter_congr (fun x (_ : x ∈ A.rows) =>
      congrArg Bool.not
        (any_congr_mem B.rows _ _
          (fun b _ => (rowsMatch_symm c1 c2 x b).symm)))]
    apply List.map_congr_left
    intro x _
    exact canonRecord_onlyRow_comm c1 c2 x
  have hright :
      ((B.rows.filter fun r =>
          !(A.rows.any (fun l => rowsMatch c1 c2 l r))).map
        (rightOnlyRow c1 c2)).map (canonRecord (mergedCols c1 c2)) =
        ((B.rows.filter fun l =>
          !(A.rows.any (fun r => rowsMatch c2 c1 l r))).map
        (leftOnlyRow c2 c1)).map (canonRecord (mergedCols c2 c1)) := by
    rw [List.map_map, List.map_map]
    rw [List.filter_congr (fun x (_ : x ∈ B.rows) =>
      congrArg Bool.not
        (any_congr_mem A.rows _ _
          (fun a _ => rowsMatch_symm c2 c1 x a)))]
    apply List.map_congr_left
    intro x _
    exact (canonRecord_onlyRow_comm c2 c1 x).symm
  rw [hleft, hright]
  refine ((hmatched.append_right _).append_right _).trans ?_
  rw [List.append_assoc, List.append_assoc]
  exact List.perm_append_comm.append_left _

/-- First frame of the merge-order counterexample: columns `k, a`. -/
def dfA : DF := ⟨["k", "a"], [[("k", .int 1), ("a", .int 10)]]⟩

/-- Second frame of the merge-order counterexample: columns `k, b`. -/
def dfB : DF := ⟨["k", "b"], [[("k", .int 2), ("b", .int 20)]]⟩

/-- Third frame of the merge-order counterexample: columns `a, b`. -/
def dfC : DF := ⟨["a", "b"], [[("a", .int 10), ("b", .int 20)]]⟩

/-- Claim C8, counterexample.  The claim states the fold of outer
merges over `[A, B, C]` gives the same table under any permutation of
the frames, up to sorting.  With heterogeneous shared columns it does
not: folding `A, B, C` joins on `k` first and leaves three rows, while
folding `A, C, B` joins `A` with `C` on `a` first, collapsing to one
row and then two — different row content, not just different order. -/
theorem C8_counterexample :
    canonRows (mergeAll [dfA, dfB, dfC]) ≠
        canonRows (mergeAll [dfA, dfC, dfB]) ∧
      (mergeAll [dfA, dfB, dfC]).rows.length = 3 ∧
      (mergeAll [dfA, dfC, dfB]).rows.length = 2 := by
  refine ⟨fun h => ?_, by decide, by decide⟩
  have hcard := congrArg Multiset.card h
  have h1 : (canonRows (mergeAll [dfA, dfB, dfC])).card = 3 := by decide
  have h2 : (canonRows (mergeAll [dfA, dfC, dfB])).card = 2 := by decide
  rw [h1, h2] at hcard
  exact absurd hcard (by decide)

/-- Claim C8, amended: a single outer-merge step is order-independent —
swapping the two frames of one `pd.merge(how='outer')` yields the same
row content up to sorting (equal multisets of canonical rows) — but
the fold over three or more frames is order-dependent, because the
join-key set of each step depends on the columns accumulated so far. -/
theorem C8_merge_comm (A B : DF) :
    canonRows (mergeDF A B) = canonRows (mergeDF B A) :=
  mergeDF_comm_canon A B

/-! Section: Resampler (`query_base._resample`)

The merged frame entering `_resample` has categorical columns (the
group keys) and aggregatable numeric columns (those in `AGGREGATE` and
not categorical, so their functions are `mean`, `sum` or `max`).  A row
is modelled with a time stamp, a tag assignment for the categorical
columns present (`none` playing `NaN`, which `groupby` drops), and a
value assignment for the numeric columns.  `resample(rule)` buckets
times by flooring to multiples of the rule; `mean`/`max` of an empty
value list are `NaN` while `sum` is `0`, as in pandas (empty
intermediate buckets, which pandas emits as such all-null aggregates,
are not materialized — they carry no information and do not affect
idempotence).  After aggregation the frame is re-indexed by time and
re-sorted. -/

/-- Aggregation functions applied by `_resample` to non-categorical
columns (from `AGGREGATE`). -/
inductive AggKind
| mean
| sum
| max
deriving DecidableEq, Repr

/-- A row of the frame entering `_resample`: time index, categorical
(tag) columns `κ`, numeric columns `ν`. -/
structure SRow (κ ν : Type) where
  time : ℕ
  tags : κ → Option String
  vals : ν → Option ℚ

/-- Left-closed, left-labelled resample bucket of a timestamp. -/
def bucket (R : ℕ) (t : ℕ) : ℕ := t / R * R

/-- Rows retained by `groupby`: pandas drops rows with a null group
key. -/
def keptRows {κ ν : Type} [Fintype κ] (df : List (SRow κ ν)) :
    List (SRow κ ν) :=
  df.filter (fun r => decide (∀ k, (r.tags k).isSome))

/-- The group-and-bucket key of a row. -/
def groupKey {κ ν : Type} (R : ℕ) (r : SRow κ ν) :
    (κ → Option String) × ℕ :=
  (r.tags, bucket R r.time)

/-- The keys present in the frame, in order of first appearance. -/
def groupsOf {κ ν : Type} [DecidableEq κ] [Fintype κ] (R : ℕ)
    (df : List (SRow κ ν)) : List ((κ → Option String) × ℕ) :=
  ((keptRows df).map (groupKey R)).dedup

/-- The rows of one group-and-bucket. -/
def groupRows {κ ν : Type} [DecidableEq κ] [Fintype κ] (R : ℕ)
    (df : List (SRow κ ν)) (key : (κ → Option String) × ℕ) :
    List (SRow κ ν) :=
  (keptRows df).filter (fun r => groupKey R r = key)

/-- The non-null values of one numeric column over a row list
(aggregation skips `NaN`). -/
def collectVals {κ ν : Type} (v : ν) (rows : List (SRow κ ν)) : List ℚ :=
  rows.filterMap (fun r => r.vals v)

/-- Pandas aggregation semantics on the non-null values: `mean` and
`max` of nothing are `NaN`, `sum` of nothing is `0`. -/
def applyAgg : AggKind → List ℚ → Option ℚ
  | .mean, l => if l = [] then none else some (l.sum / l.length)
  | .sum, l => some l.sum
  | .max, l => l.max?

/-- The aggregated output row of one group-and-bucket. -/
def aggRow {κ ν : Type} [DecidableEq κ] [Fintype κ] (R : ℕ)
    (agg : ν → AggKind) (df : List (SRow κ ν))
    (key : (κ → Option String) × ℕ) : SRow κ ν :=
  ⟨key.2, key.1, fun v => applyAgg (agg v) (collectVals v (groupRows R df key))⟩

/-- Row order by the time index (`sort_index`). -/
def sTimeLe {κ ν : Type} (a b : SRow κ ν) : Prop := a.time ≤ b.time

instance {κ ν : Type} : DecidableRel (sTimeLe (κ := κ) (ν := ν)) :=
  fun _ _ => Nat.decLe _ _

instance {κ ν : Type} : IsTotal (SRow κ ν) sTimeLe :=
  ⟨fun a b => Nat.le_total a.time b.time⟩

instance {κ ν : Type} : IsTrans (SRow κ ν) sTimeLe :=
  ⟨fun _ _ _ => Nat.le_trans⟩

/-- Embedding of `_resample(df, rule)`: group the kept rows by
categorical values and time bucket, aggregate each group per column,
then re-index by time and re-sort chronologically. -/
def resample {κ ν : Type} [DecidableEq κ] [Fintype κ] (R : ℕ)
    (agg : ν → AggKind) (df : List (SRow κ ν)) : List (SRow κ ν) :=
  List.insertionSort sTimeLe ((groupsOf R df).map (aggRow R agg df))

/-- Bucketing is idempotent. -/
lemma bucket_idem (R t : ℕ) : bucket R (bucket R t) = bucket R t := by
  cases R with
  | zero => simp [bucket]
  | succ n =>
      unfold bucket
      rw [Nat.mul_div_cancel _ (Nat.succ_pos n)]

/-- Every key in `groupsOf` has fully non-null tags and a
bucket-aligned time. -/
lemma groupsOf_shape {κ ν : Type} [DecidableEq κ] [Fintype κ] (R : ℕ)
    (df : List (SRow κ ν)) (key : (κ → Option String) × ℕ)
    (hk : key ∈ groupsOf R df) :
    (∀ k, (key.1 k).isSome) ∧ bucket R key.2 = key.2 := by
  have hk' := List.mem_dedup.mp hk
  rcases List.mem_map.mp hk' with ⟨r0, hr0, hkey⟩
  unfold keptRows at hr0
  have hp := List.of_mem_filter
    (p := fun r : SRow κ ν => decide (∀ k, (r.tags k).isSome)) hr0
  have htags : ∀ k, (r0.tags k).isSome := of_decide_eq_true hp
  subst hkey
  exact ⟨htags, bucket_idem R r0.time⟩

/-- The key of an aggregated row is its group's key. -/
lemma groupKey_aggRow {κ ν : Type} [DecidableEq κ] [Fintype κ] (R : ℕ)
    (agg : ν → AggKind) (df : List (SRow κ ν))
    (key : (κ → Option String) × ℕ) (hk : key ∈ groupsOf R df) :
    groupKey R (aggRow R agg df key) = key := by
  rcases groupsOf_shape R df key hk with ⟨_, hb⟩
  show (key.1, bucket R key.2) = key
  rw [hb]

/-- Every row of a resampled frame is the aggregate of a present key. -/
lemma mem_resample {κ ν : Type} [DecidableEq κ] [Fintype κ] {R : ℕ}
    {agg : ν → AggKind} {df : List (SRow κ ν)} {r : SRow κ ν}
    (hr : r ∈ resample R agg df) :
    ∃ key ∈ groupsOf R df, r = aggRow R agg df key := by
  have := (List.perm_insertionSort sTimeLe _).mem_iff.mp hr
  rcases List.mem_map.mp this with ⟨key, hkey, haggr⟩
  exact ⟨key, hkey, haggr.symm⟩

/-- Shape of a resampled row: non-null tags, bucket-aligned time, and
non-null `sum` columns; moreover the row is recovered by aggregating
its own key. -/
lemma resample_row_shape {κ ν : Type} [DecidableEq κ] [Fintype κ]
    {R : ℕ} {agg : ν → AggKind} {df : List (SRow κ ν)} {r : SRow κ ν}
    (hr : r ∈ resample R agg df) :
    (∀ k, (r.tags k).isSome) ∧ bucket R r.time = r.time ∧
      (∀ v, agg v = AggKind.sum → (r.vals v).isSome) := by
  rcases mem_resample hr with ⟨key, hkey, rfl⟩
  rcases groupsOf_shape R df key hkey with ⟨htags, hb⟩
  refine ⟨htags, hb, ?_⟩
  intro v hv
  show (applyAgg (agg v) _).isSome
  rw [hv, applyAgg]
  rfl

/-- A resampled frame survives the `groupby` null-key filter whole. -/
lemma keptRows_resample {κ ν : Type} [DecidableEq κ] [Fintype κ]
    (R : ℕ) (agg : ν → AggKind) (df : List (SRow κ ν)) :
    keptRows (resample R agg df) = resample R agg df := by
  apply List.filter_eq_self.mpr
  intro r hr
  exact decide_eq_true (resample_row_shape hr).1

/-- The keys of a resampled frame's rows, in row order, are exactly the
keys of the original frame (up to permutation); in particular they are
distinct. -/
lemma map_groupKey_resample_perm {κ ν : Type} [DecidableEq κ]
    [Fintype κ] (R : ℕ) (agg : ν → AggKind) (df : List (SRow κ ν)) :
    ((resample R agg df).map (groupKey R)).Perm (groupsOf R df) := by
  have h1 : ((resample R agg df).map (groupKey R)).Perm
      (((groupsOf R df).map (aggRow R agg df)).map (groupKey R)) :=
    (List.perm_insertionSort sTimeLe _).map _
  refine h1.trans ?_
  rw [List.map_map]
  have h2 : (groupsOf R df).map (groupKey R ∘ aggRow R agg df) =
      (groupsOf R df).map id := by
    apply List.map_congr_left
    intro key hkey
    exact groupKey_aggRow R agg df key hkey
  rw [h2, List.map_id]

/-- Row keys of a resampled frame are distinct. -/
lemma nodup_map_groupKey_resample {κ ν : Type} [DecidableEq κ]
    [Fintype κ] (R : ℕ) (agg : ν → AggKind) (df : List (SRow κ ν)) :
    ((resample R agg df).map (groupKey R)).Nodup :=
  ((map_groupKey_resample_perm R agg df).nodup_iff).mpr
    (List.nodup_dedup _)

/-- The groups of a resampled frame are its rows' keys in row order. -/
lemma groupsOf_resample {κ ν : Type} [DecidableEq κ] [Fintype κ]
    (R : ℕ) (agg : ν → AggKind) (df : List (SRow κ ν)) :
    groupsOf R (resample R agg df) = (resample R agg df).map (groupKey R) := by
  unfold groupsOf
  rw [keptRows_resample,
    List.dedup_eq_self.mpr (nodup_map_groupKey_resample R agg df)]

/-- Filtering a list by the key of one of its members returns exactly
that member, when the keys are distinct. -/
lemma filter_key_singleton {α β : Type} [DecidableEq β] (f : α → β) :
    ∀ l : List α, (l.map f).Nodup → ∀ r ∈ l,
      l.filter (fun s => f s = f r) = [r]
  | a :: tl, hnodup, r, hr => by
    rw [List.map_cons, List.nodup_cons] at hnodup
    rcases hnodup with ⟨hfa, htl⟩
    rcases List.mem_cons.mp hr with rfl | hrtl
    · have hnil : tl.filter (fun s => f s = f r) = [] := by
        rw [List.filter_eq_nil_iff]
        intro s hs hfs
        exact hfa (by
          rw [← of_decide_eq_true hfs]
          exact List.mem_map_of_mem f hs)
      simp [List.filter_cons, hnil]
    · have hne : ¬(f a = f r) := by
        intro h
        exact hfa (h ▸ List.mem_map_of_mem f hrtl)
      simp only [List.filter_cons, decide_eq_true_eq, if_neg hne]
      exact filter_key_singleton f tl htl r hrtl

/-- In a resampled frame, the group of one of its rows is that row
alone. -/
lemma groupRows_resample_singleton {κ ν : Type} [DecidableEq κ]
    [Fintype κ] {R : ℕ} {agg : ν → AggKind} {df : List (SRow κ ν)}
    {r : SRow κ ν} (hr : r ∈ resample R agg df) :
    groupRows R (resample R agg df) (groupKey R r) = [r] := by
  unfold groupRows
  rw [keptRows_resample]
  exact filter_key_singleton (groupKey R) _
    (nodup_map_groupKey_resample R agg df) r hr

/-- Aggregating a singleton group reproduces its row. -/
lemma aggRow_resample_self {κ ν : Type} [DecidableEq κ] [Fintype κ]
    {R : ℕ} {agg : ν → AggKind} {df : List (SRow κ ν)} {r : SRow κ ν}
    (hr : r ∈ resample R agg df) :
    aggRow R agg (resample R agg df) (groupKey R r) = r := by
  rcases resample_row_shape hr with ⟨_, hb, hsum⟩
  unfold aggRow
  rw [groupRows_resample_singleton hr]
  obtain ⟨t, tg, vl⟩ := r
  simp only [SRow.mk.injEq]
  refine ⟨hb, rfl, funext fun v => ?_⟩
  have hcollect : collectVals v [SRow.mk t tg vl] =
      match vl v with
      | some q => [q]
      | none => [] := by
    unfold collectVals
    cases hvv : vl v <;> simp [List.filterMap_cons, hvv]
  rw [hcollect]
  cases hagg : agg v with
  | mean =>
      cases hv : vl v with
      | some q => simp [applyAgg]
      | none => simp [applyAgg]
  | sum =>
      cases hv : vl v with
      | some q => simp [applyAgg]
      | none =>
          exfalso
          have hvs : (vl v).isSome = true := hsum v hagg
          rw [hv] at hvs
          exact Bool.noConfusion hvs
  | max =>
      cases hv : vl v with
      | some q => simp [applyAgg, List.max?]
      | none => simp [applyAgg, List.max?]

/-- Claim C9: on a bucket-aligned frame, resampling twice at the same
rule equals resampling once.  (The proof shows the second pass
reproduces the first unchanged: every group of the resampled frame is
a singleton whose aggregates are fixed points.) -/
theorem C9_resample_idempotent {κ ν : Type} [DecidableEq κ] [Fintype κ]
    (R : ℕ) (agg : ν → AggKind) (df : List (SRow κ ν))
    (_hR : 0 < R) (_halign : ∀ r ∈ df, r.time % R = 0) :
    resample R agg (resample R agg df) = resample R agg df := by
  set E := resample R agg df with hE
  rw [resample, groupsOf_resample, List.map_map]
  have h2 : E.map (aggRow R agg E ∘ groupKey R) = E.map id := by
    apply List.map_congr_left
    intro r hr
    exact aggRow_resample_self hr
  rw [h2, List.map_id]
  have hsorted : List.Sorted sTimeLe E := by
    rw [hE]
    exact List.sorted_insertionSort _ _
  exact hsorted.insertionSort_eq

/-- Aggregation assignment of the idempotence witness: one `mean`
column and one `sum` column. -/
def exAgg : Bool → AggKind := fun v => if v then .mean else .sum

/-- A concrete bucket-aligned frame: one categorical column (constant
tag), two rows in bucket 0 and one in bucket 2, with a null value in
each numeric column. -/
def exDf : List (SRow Unit Bool) :=
  [⟨0, fun _ => some "Orange", fun v => if v then some 10 else some 1⟩,
   ⟨0, fun _ => some "Orange", fun v => if v then some 20 else none⟩,
   ⟨2, fun _ => some "Orange", fun v => if v then none else some 3⟩]

/-- Claim C9, witness: the idempotence theorem applied to the concrete
aligned frame above with rule `R = 2`. -/
theorem C9_resample_idempotent_witness :
    0 < 2 ∧ (∀ r ∈ exDf, r.time % 2 = 0) ∧
      resample 2 exAgg (resample 2 exAgg exDf) = resample 2 exAgg exDf :=
  ⟨by decide, by decide,
   C9_resample_idempotent 2 exAgg exDf (by decide) (by decide)⟩

end MonroeAnal
